import Mathlib

/-!
Verification of the content-structuring pipeline in
`src/content_processor.py` of the pptx-automation-tool repository.

Python strings are modelled as lists of characters (`Str`); Python's
`str.split()` (whitespace splitting), `str.strip()`, `" ".join`, and
`re.split(r'[.!?]+', text)` are embedded below.  Functions that can raise
(`ZeroDivisionError` in `research_and_expand` and `summarize_and_outline`)
return `Option`, with `none` standing for the raised exception.
-/

namespace PPTX

/-- A Python string, modelled as its list of characters. -/
abbrev Str := List Char

/-- Shorthand turning a Lean string literal into the `Str` model. -/
def toL (s : String) : Str := s.data

/-- The whitespace characters recognised by Python's `str.split()` /
`str.strip()` (the ASCII ones; the sources only ever contain these). -/
def isSpace (c : Char) : Bool :=
  c = ' ' || c = '\t' || c = '\n' || c = '\x0d' || c = '\x0b' || c = '\x0c'

/-- The sentence-terminating characters of `re.split(r'[.!?]+', text)`. -/
def isPunct (c : Char) : Bool :=
  c = '.' || c = '!' || c = '?'

/-- Python `s.strip()`: drop leading and trailing whitespace. -/
def strip (s : Str) : Str :=
  ((s.dropWhile isSpace).reverse.dropWhile isSpace).reverse

/-- Worker for `pyWords`: `acc` holds the (reversed) word currently being
read.  Mirrors Python `s.split()` with no separator argument: maximal
runs of non-whitespace become words, leading/trailing space is ignored. -/
def wordsAux : List Char → List Char → List Str
  | [], acc => if acc = [] then [] else [acc.reverse]
  | c :: cs, acc =>
      if isSpace c then
        if acc = [] then wordsAux cs [] else acc.reverse :: wordsAux cs []
      else
        wordsAux cs (c :: acc)

/-- Python `s.split()` (no argument): the whitespace-separated words. -/
def pyWords (s : Str) : List Str := wordsAux s []

/-- Python `sep.join(xs)`: the pieces concatenated with `sep` between
consecutive pieces. -/
def pyJoin (sep : Str) : List Str → Str
  | [] => []
  | [x] => x
  | x :: y :: rest => x ++ sep ++ pyJoin sep (y :: rest)

mutual
/-- Worker for `reSplitPunct`, scanning ordinary characters; `acc` is the
(reversed) current piece.  Mirrors `re.split(r'[.!?]+', text)`. -/
def spA : List Char → List Char → List (List Char)
  | [], acc => [acc.reverse]
  | c :: cs, acc =>
      if isPunct c then acc.reverse :: spB cs
      else spA cs (c :: acc)

/-- Worker for `reSplitPunct`, scanning the remainder of a punctuation
run; further punctuation extends the current match. -/
def spB : List Char → List (List Char)
  | [] => [[]]
  | c :: cs =>
      if isPunct c then spB cs
      else spA cs [c]
end

/-- `re.split(r'[.!?]+', text)`: the pieces of `text` between maximal
runs of `.`, `!`, `?` (empty pieces included, as in Python). -/
def reSplitPunct (text : Str) : List Str := spA text []

/-- `ContentProcessor._split_into_sentences` (content_processor.py:166):
regex-split on punctuation runs, strip each piece, drop empty results. -/
def split_into_sentences (text : Str) : List Str :=
  ((reSplitPunct text).map strip).filter (fun s => s ≠ [])

/-- The two languages the tool supports. -/
inductive Lang | es | en
deriving DecidableEq

/-- `get_text('section', language)` from translations.py. -/
def sectionText : Lang → Str
  | Lang.es => toL "Sección"
  | Lang.en => toL "Section"

/-- Decimal rendering of a natural number, as Python `str(n)` / f-string
interpolation produces for the non-negative numbers used here. -/
def natStr (n : Nat) : Str := (Nat.repr n).data

/-- `ContentProcessor._generate_title` (content_processor.py:180):
first five words of the first sentence, "..." appended when truncated;
localized "Section N" fallback for an empty window. -/
def generate_title (lang : Lang) (section_num : Nat) (sentences : List Str) : Str :=
  match sentences with
  | [] => sectionText lang ++ [' '] ++ natStr section_num
  | first_sentence :: _ =>
      let words := (pyWords first_sentence).take 5
      let title := pyJoin [' '] words
      if (pyWords first_sentence).length > 5 then title ++ toL "..." else title

/-- `ContentProcessor._generate_bullets` (content_processor.py:202):
up to `max_bullets` sentences, each stripped and truncated to
117 characters plus "..." when longer than 120. -/
def generate_bullets (sentences : List Str) (max_bullets : Nat := 6) : List Str :=
  (sentences.take max_bullets).map (fun sentence =>
    let bullet := strip sentence
    if bullet.length > 120 then bullet.take 117 ++ toL "..." else bullet)

/-- A slide-content record (`{"title": ..., "bullets": ..., "image_path": ..., "alt": ...}`). -/
structure SlideContent where
  title : Str
  bullets : List Str
  image_path : Option Str
  alt : Str
deriving DecidableEq

/-- The slide-building loop of `summarize_and_outline`
(content_processor.py:144-162): `remaining` iterations left, `i` the
current slide index; an empty window breaks out of the loop. -/
def buildSlides (lang : Lang) (sentences : List Str) (per : Nat) :
    Nat → Nat → List SlideContent
  | 0, _ => []
  | remaining + 1, i =>
      let slide_sentences := (sentences.drop (i * per)).take per
      if slide_sentences = [] then []
      else
        { title := generate_title lang (i + 1) slide_sentences
          bullets := generate_bullets slide_sentences
          image_path := none
          alt := [] } :: buildSlides lang sentences per remaining (i + 1)

/-- `ContentProcessor.summarize_and_outline` (content_processor.py:103):
`none` models the `ZeroDivisionError` raised when `slides_count = 2`
(division by `content_slides = 0`).  `slides_count` is an arbitrary
Python integer; Python's `//` is floor division (`Int.fdiv`). -/
def summarize_and_outline (lang : Lang) (text : Str) (slides_count : Int)
    (_target_words : Int := 500) : Option (List SlideContent) :=
  let content_slides : Int := slides_count - 2
  if content_slides = 0 then none
  else
    let sentences := split_into_sentences text
    let sentences_per_slide : Int :=
      max 3 (Int.fdiv (sentences.length : Int) content_slides)
    some (buildSlides lang sentences sentences_per_slide.toNat
      content_slides.toNat 0)

/-- `ContentProcessor.research_and_expand` (content_processor.py:63):
`none` models the `ZeroDivisionError` when the description has no words. -/
def research_and_expand (description : Str) (target_words : Nat) : Option Str :=
  let words_needed := target_words
  let current_words := (pyWords description).length
  if current_words = 0 then none
  else
    let repetitions := words_needed / current_words + 1
    let expanded := List.flatten (List.replicate repetitions (description ++ [' ']))
    some (pyJoin [' '] ((pyWords expanded).take target_words))

/-- `ContentProcessor.extract_key_ideas` (content_processor.py:224). -/
def extract_key_ideas (text : Str) (count : Nat := 5) : List Str :=
  (split_into_sentences text).take count

/-- The `spec["length_target"]` sub-dictionary: only the key
`validate_content` reads, with `none` when it is absent (`.get` default). -/
structure LengthTarget where
  bullets_per_slide_max : Option Nat

/-- The specification dictionary as consumed by `validate_content`. -/
structure Spec where
  length_target : LengthTarget

/-- `ContentProcessor.validate_content` (content_processor.py:240).
`pathExists` models `os.path.exists`.  Returns `(is_valid, warnings)`. -/
def validate_content (pathExists : Str → Bool)
    (slides_content : List SlideContent) (spec : Spec) : Bool × List Str :=
  let max_bullets := spec.length_target.bullets_per_slide_max.getD 6
  let warnings := (slides_content.enum.map (fun p =>
    let i := p.1
    let slide := p.2
    let bullets := slide.bullets
    let w1 : List Str :=
      if bullets.length > max_bullets then
        [toL "Slide " ++ natStr (i + 1) ++ toL " has " ++ natStr bullets.length
          ++ toL " bullets (max: " ++ natStr max_bullets ++ toL ")"]
      else []
    let w2 : List Str := (bullets.enum.filterMap (fun q =>
      if q.2.length > 150 then
        some (toL "Slide " ++ natStr (i + 1) ++ toL ", bullet " ++ natStr (q.1 + 1)
          ++ toL " is too long (" ++ natStr q.2.length ++ toL " chars)")
      else none))
    let w3 : List Str :=
      match slide.image_path with
      | none => []
      | some p =>
          if p ≠ [] && !pathExists p then
            [toL "Slide " ++ natStr (i + 1) ++ toL ": Image not found: " ++ p]
          else []
    w1 ++ w2 ++ w3)).flatten
  (warnings.length = 0, warnings)

end PPTX

namespace PPTX

theorem dropWhile_idem (p : Char → Bool) (l : List Char) :
    (l.dropWhile p).dropWhile p = l.dropWhile p := by
  have h := List.head?_dropWhile_not p l
  cases hd : l.dropWhile p with
  | nil => simp
  | cons a as =>
      rw [hd] at h
      simp only [List.head?_cons] at h
      simp [List.dropWhile_cons, h]

theorem dropWhile_eq_self_of_prefix {p : Char → Bool} {l₁ l₂ : List Char}
    (hpre : l₁ <+: l₂) (h : l₂.dropWhile p = l₂) : l₁.dropWhile p = l₁ := by
  cases l₁ with
  | nil => simp
  | cons a as =>
      obtain ⟨t, ht⟩ := hpre
      subst ht
      rw [List.cons_append] at h
      by_cases hpa : p a
      · rw [List.dropWhile_cons_of_pos hpa] at h
        have h1 : (List.dropWhile p (as ++ t)).length = (a :: (as ++ t)).length := by rw [h]
        have h2 := (List.dropWhile_suffix (l := as ++ t) p).sublist.length_le
        simp only [List.length_cons] at h1
        omega
      · simp [List.dropWhile_cons_of_neg hpa]

theorem strip_prefix_dropWhile (s : Str) : strip s <+: s.dropWhile isSpace := by
  have h1 : (s.dropWhile isSpace).reverse.dropWhile isSpace <:+ (s.dropWhile isSpace).reverse :=
    List.dropWhile_suffix _
  have h2 := h1.reverse
  rw [List.reverse_reverse] at h2
  exact h2

theorem strip_noLead (s : Str) : (strip s).dropWhile isSpace = strip s :=
  dropWhile_eq_self_of_prefix (strip_prefix_dropWhile s) (dropWhile_idem _ _)

theorem strip_noTrail (s : Str) : (strip s).reverse.dropWhile isSpace = (strip s).reverse := by
  unfold strip
  rw [List.reverse_reverse]
  exact dropWhile_idem _ _

theorem strip_idem (s : Str) : strip (strip s) = strip s := by
  conv_lhs => rw [strip, strip_noLead, strip_noTrail, List.reverse_reverse]

end PPTX

namespace PPTX

theorem wordsAux_append_space (a b : Str) (acc : List Char) :
    wordsAux (a ++ ' ' :: b) acc = wordsAux a acc ++ wordsAux b [] := by
  induction a generalizing acc with
  | nil =>
      show wordsAux (' ' :: b) acc = wordsAux [] acc ++ wordsAux b []
      rw [wordsAux, wordsAux]
      by_cases hacc : acc = [] <;> simp [hacc, isSpace]
  | cons c cs ih =>
      rw [List.cons_append, wordsAux, wordsAux]
      by_cases hc : isSpace c
      · simp only [hc, if_true]
        by_cases hacc : acc = [] <;> simp [hacc, ih]
      · simp only [hc, if_false, Bool.false_eq_true]
        exact ih (c :: acc)

theorem wordsAux_no_space (l : Str) (acc : List Char) (h : ∀ c ∈ l, isSpace c = false) :
    wordsAux l acc = wordsAux [] (l.reverse ++ acc) := by
  induction l generalizing acc with
  | nil => rfl
  | cons c cs ih =>
      have hc : isSpace c = false := h c (by simp)
      conv_lhs => rw [wordsAux]
      simp only [hc, Bool.false_eq_true, if_false]
      rw [ih (c :: acc) (fun d hd => h d (by simp [hd]))]
      simp

theorem pyWords_single (w : Str) (hne : w ≠ []) (h : ∀ c ∈ w, isSpace c = false) :
    pyWords w = [w] := by
  unfold pyWords
  rw [wordsAux_no_space w [] h, wordsAux]
  simp [hne]

theorem wordsAux_ne_nil_of_acc (l : Str) (acc : List Char) (hacc : acc ≠ []) :
    wordsAux l acc ≠ [] := by
  induction l generalizing acc with
  | nil => simp [wordsAux, hacc]
  | cons c cs ih =>
      rw [wordsAux]
      by_cases hc : isSpace c
      · simp [hc, hacc]
      · simp only [hc, Bool.false_eq_true, if_false]
        exact ih (c :: acc) (by simp)

theorem head_not_of_dropWhile_eq_self {p : Char → Bool} {a : Char} {l : List Char}
    (h : List.dropWhile p (a :: l) = a :: l) : p a = false := by
  by_cases hpa : p a
  · rw [List.dropWhile_cons_of_pos hpa] at h
    have h1 : (List.dropWhile p l).length = (a :: l).length := by rw [h]
    have h2 := (List.dropWhile_suffix (l := l) p).sublist.length_le
    simp only [List.length_cons] at h1
    omega
  · simpa using hpa

theorem pyWords_ne_nil (s : Str) (hne : s ≠ []) (hs : strip s = s) :
    pyWords s ≠ [] := by
  cases s with
  | nil => exact absurd rfl hne
  | cons a l =>
      have hlead : List.dropWhile isSpace (a :: l) = a :: l := by
        have := strip_noLead (a :: l)
        rwa [hs] at this
      have ha := head_not_of_dropWhile_eq_self hlead
      unfold pyWords
      rw [wordsAux]
      simp only [ha, Bool.false_eq_true, if_false]
      exact wordsAux_ne_nil_of_acc l [a] (by simp)

theorem mem_wordsAux (w : Str) (l : Str) (acc : List Char) :
    (∀ c ∈ acc, isSpace c = false) → w ∈ wordsAux l acc →
    w ≠ [] ∧ ∀ c ∈ w, isSpace c = false := by
  induction l generalizing acc with
  | nil =>
      intro hacc hw
      rw [wordsAux] at hw
      by_cases h : acc = []
      · simp [h] at hw
      · simp only [h, if_false] at hw
        simp only [List.mem_singleton] at hw
        subst hw
        exact ⟨by simp [h], fun c hc => hacc c (by simpa using hc)⟩
  | cons c cs ih =>
      intro hacc hw
      rw [wordsAux] at hw
      by_cases hc : isSpace c
      · simp only [hc, if_true] at hw
        by_cases h : acc = []
        · rw [if_pos h] at hw
          exact ih [] (by simp) hw
        · rw [if_neg h] at hw
          rcases List.mem_cons.1 hw with he | ht
          · subst he
            exact ⟨by simp [h], fun d hd => hacc d (by simpa using hd)⟩
          · exact ih [] (by simp) ht
      · simp only [hc, Bool.false_eq_true, if_false] at hw
        refine ih (c :: acc) ?_ hw
        intro d hd
        rcases List.mem_cons.1 hd with he | ht
        · subst he; simpa using hc
        · exact hacc d ht

theorem mem_pyWords (w s : Str) (hw : w ∈ pyWords s) :
    w ≠ [] ∧ ∀ c ∈ w, isSpace c = false :=
  mem_wordsAux w s [] (by simp) hw

theorem wordsAux_all_space (l : Str) (h : ∀ c ∈ l, isSpace c = true) :
    wordsAux l [] = [] := by
  induction l with
  | nil => rfl
  | cons c cs ih =>
      rw [wordsAux]
      simp [h c (by simp), ih (fun d hd => h d (by simp [hd]))]

theorem pyWords_flatten_replicate (n : Nat) (d : Str) :
    pyWords (List.flatten (List.replicate n (d ++ [' ']))) =
      List.flatten (List.replicate n (pyWords d)) := by
  induction n with
  | zero => rfl
  | succ m ih =>
      rw [List.replicate_succ, List.flatten_cons, List.replicate_succ, List.flatten_cons, ← ih]
      have hre : (d ++ [' ']) ++ List.flatten (List.replicate m (d ++ [' '])) =
          d ++ ' ' :: List.flatten (List.replicate m (d ++ [' '])) := by simp
      rw [hre]
      exact wordsAux_append_space d _ []

theorem pyWords_join (ws : List Str)
    (h : ∀ w ∈ ws, w ≠ [] ∧ ∀ c ∈ w, isSpace c = false) :
    pyWords (pyJoin [' '] ws) = ws := by
  induction ws with
  | nil => rfl
  | cons w rest ih =>
      cases rest with
      | nil =>
          show pyWords w = [w]
          exact pyWords_single w (h w (by simp)).1 (h w (by simp)).2
      | cons w2 rest2 =>
          have hjoin : pyJoin [' '] (w :: w2 :: rest2) =
              w ++ ' ' :: pyJoin [' '] (w2 :: rest2) := by
            rw [pyJoin]; simp
          rw [hjoin]
          show wordsAux (w ++ ' ' :: pyJoin [' '] (w2 :: rest2)) [] = _
          rw [wordsAux_append_space]
          have h1 : wordsAux w [] = [w] :=
            pyWords_single w (h w (by simp)).1 (h w (by simp)).2
          rw [h1]
          have h2 : wordsAux (pyJoin [' '] (w2 :: rest2)) [] = w2 :: rest2 :=
            ih (fun x hx => h x (by simp [hx]))
          rw [h2]
          rfl

theorem length_flatten_replicate {α : Type} (n : Nat) (w : List α) :
    (List.flatten (List.replicate n w)).length = n * w.length := by
  induction n with
  | zero => simp
  | succ m ih =>
      rw [List.replicate_succ, List.flatten_cons, List.length_append, ih, Nat.succ_mul]
      omega

theorem getElem?_flatten_replicate {α : Type} (w : List α) (n i : Nat)
    (h : i < n * w.length) :
    (List.flatten (List.replicate n w))[i]? = w[i % w.length]? := by
  induction n generalizing i with
  | zero => omega
  | succ m ih =>
      rw [List.replicate_succ, List.flatten_cons, List.getElem?_append]
      by_cases hi : i < w.length
      · rw [if_pos hi, Nat.mod_eq_of_lt hi]
      · rw [if_neg hi]
        have hw : 0 < w.length := by
          rcases Nat.eq_zero_or_pos w.length with h0 | h0
          · rw [h0] at h; omega
          · exact h0
        have hle : w.length ≤ i := Nat.le_of_not_lt hi
        rw [Nat.succ_mul] at h
        have h2 : i - w.length < m * w.length := by omega
        rw [ih _ h2]
        congr 1
        conv_rhs => rw [← Nat.sub_add_cancel hle, Nat.add_mod_right]

end PPTX

namespace PPTX

theorem spA_no_punct (l : Str) (acc : List Char) (h : ∀ c ∈ l, isPunct c = false) :
    spA l acc = [acc.reverse ++ l] := by
  induction l generalizing acc with
  | nil => simp [spA]
  | cons c cs ih =>
      have hc : isPunct c = false := h c (by simp)
      rw [spA]
      simp only [hc, Bool.false_eq_true, if_false]
      rw [ih (c :: acc) (fun d hd => h d (by simp [hd]))]
      simp

theorem reSplitPunct_no_punct (text : Str) (h : ∀ c ∈ text, isPunct c = false) :
    reSplitPunct text = [text] := by
  unfold reSplitPunct
  rw [spA_no_punct text [] h]
  rfl

theorem mem_split_into_sentences (s text : Str) (hs : s ∈ split_into_sentences text) :
    s ≠ [] ∧ strip s = s := by
  unfold split_into_sentences at hs
  have h1 := List.of_mem_filter hs
  have h2 := List.mem_of_mem_filter hs
  obtain ⟨piece, _, hp⟩ := List.mem_map.1 h2
  refine ⟨by simpa using h1, ?_⟩
  rw [← hp]
  exact strip_idem piece

theorem split_into_sentences_sublist (text : Str) :
    (split_into_sentences text).Sublist ((reSplitPunct text).map strip) :=
  List.filter_sublist _

theorem split_into_sentences_no_punct (text : Str) (h : ∀ c ∈ text, isPunct c = false) :
    split_into_sentences text = if strip text = [] then [] else [strip text] := by
  unfold split_into_sentences
  rw [reSplitPunct_no_punct text h]
  by_cases hst : strip text = [] <;> simp [hst]

theorem buildSlides_nil (lang : Lang) (per n i : Nat) :
    buildSlides lang [] per n i = [] := by
  cases n with
  | zero => rfl
  | succ m => rw [buildSlides]; simp

theorem length_buildSlides (lang : Lang) (sentences : List Str) (per n i : Nat) :
    (buildSlides lang sentences per n i).length ≤ n := by
  induction n generalizing i with
  | zero => simp [buildSlides]
  | succ m ih =>
      rw [buildSlides]
      by_cases h : (sentences.drop (i * per)).take per = []
      · simp [h]
      · rw [if_neg h]
        simpa using ih (i + 1)

theorem pyJoin_ne_nil (sep : Str) (w : Str) (t : List Str) (hw : w ≠ []) :
    pyJoin sep (w :: t) ≠ [] := by
  cases t with
  | nil => simpa [pyJoin] using hw
  | cons y rest => simp [pyJoin, hw]

theorem generate_title_ne_nil (lang : Lang) (k : Nat) (first : Str) (rest : List Str)
    (h : pyWords first ≠ []) : generate_title lang k (first :: rest) ≠ [] := by
  obtain ⟨w, ws, hw⟩ := List.exists_cons_of_ne_nil h
  have hwne : w ≠ [] := (mem_pyWords w first (by rw [hw]; simp)).1
  rw [generate_title]
  simp only [hw, List.take_succ_cons]
  by_cases hlen : (w :: ws).length > 5
  · rw [if_pos hlen]
    intro hcon
    rcases List.append_eq_nil.1 hcon with ⟨hl, _⟩
    exact pyJoin_ne_nil [' '] w (ws.take 4) hwne hl
  · rw [if_neg hlen]
    exact pyJoin_ne_nil [' '] w (ws.take 4) hwne

theorem generate_bullets_ne_nil (first : Str) (rest : List Str) :
    generate_bullets (first :: rest) ≠ [] := by
  rw [generate_bullets]
  simp

theorem mem_buildSlides (lang : Lang) (sentences : List Str) (per n i : Nat)
    (hsent : ∀ s ∈ sentences, s ≠ [] ∧ strip s = s)
    (sl : SlideContent) (hmem : sl ∈ buildSlides lang sentences per n i) :
    sl.title ≠ [] ∧ sl.bullets ≠ [] := by
  induction n generalizing i with
  | zero => simp [buildSlides] at hmem
  | succ m ih =>
      rw [buildSlides] at hmem
      by_cases h : (sentences.drop (i * per)).take per = []
      · rw [if_pos h] at hmem
        simp at hmem
      · rw [if_neg h] at hmem
        rcases List.mem_cons.1 hmem with he | ht
        · obtain ⟨first, rest, hw⟩ := List.exists_cons_of_ne_nil h
          have hsub : ((sentences.drop (i * per)).take per).Sublist sentences :=
            (List.take_sublist _ _).trans (List.drop_sublist _ _)
          have hf : first ∈ sentences := hsub.subset (by rw [hw]; simp)
          obtain ⟨hfne, hfstrip⟩ := hsent first hf
          have hwne := pyWords_ne_nil first hfne hfstrip
          subst he
          constructor
          · show generate_title lang (i + 1) ((sentences.drop (i * per)).take per) ≠ []
            rw [hw]
            exact generate_title_ne_nil lang (i + 1) first rest hwne
          · show generate_bullets ((sentences.drop (i * per)).take per) ≠ []
            rw [hw]
            exact generate_bullets_ne_nil first rest
        · exact ih (i + 1) ht

end PPTX

namespace PPTX

/-- Claim C1, amended: for every text, every `slides_count ≥ 3` and every
`target_words`, the slide sequence returned by `summarize_and_outline`
has length at most `slides_count - 2`. -/
theorem C1_amended_length_le (lang : Lang) (text : Str) (sc tw : Int)
    (l : List SlideContent) (hsc : 3 ≤ sc)
    (h : summarize_and_outline lang text sc tw = some l) :
    (l.length : Int) ≤ sc - 2 := by
  simp only [summarize_and_outline] at h
  rw [if_neg (by omega : ¬(sc - 2 = 0))] at h
  have hl := Option.some.inj h
  have hlen := length_buildSlides lang (split_into_sentences text)
      (max 3 (Int.fdiv ((split_into_sentences text).length : Int) (sc - 2))).toNat
      (sc - 2).toNat 0
  rw [hl] at hlen
  omega

/-- Claim C1, counterexample: at `slides_count = 1` the code returns the
empty sequence, whose length 0 exceeds `slides_count - 2 = -1`, so the
bound does not hold for every `slides_count`. -/
theorem C1_counterexample :
    ∃ l, summarize_and_outline Lang.es (toL "A. B.") 1 500 = some l ∧
      ¬((l.length : Int) ≤ (1 : Int) - 2) :=
  ⟨[], by decide, by decide⟩

/-- Witness for C1 at `slides_count = 5` on a six-sentence text. -/
theorem C1_witness :
    (([{ title := toL "A", bullets := [toL "A", toL "B", toL "C"],
         image_path := none, alt := [] },
       { title := toL "D", bullets := [toL "D", toL "E", toL "F"],
         image_path := none, alt := [] }] : List SlideContent).length : Int)
      ≤ 5 - 2 :=
  C1_amended_length_le Lang.es (toL "A. B. C. D. E. F.") 5 500
    [{ title := toL "A", bullets := [toL "A", toL "B", toL "C"],
       image_path := none, alt := [] },
     { title := toL "D", bullets := [toL "D", toL "E", toL "F"],
       image_path := none, alt := [] }] (by decide) (by decide)

/-- Claim C2: bullet generation emits at most 6 bullets, every emitted
bullet has length at most 120, and each kept sentence appears as its
trimmed form — unchanged when that form is at most 120 characters, and
otherwise as its first 117 characters followed by the ellipsis. -/
theorem C2_bullet_truncation (sentences : List Str) :
    (generate_bullets sentences).length ≤ 6 ∧
    (∀ b ∈ generate_bullets sentences, b.length ≤ 120) ∧
    generate_bullets sentences = (sentences.take 6).map (fun s =>
      if (strip s).length ≤ 120 then strip s
      else (strip s).take 117 ++ toL "...") := by
  refine ⟨?_, ?_, ?_⟩
  · rw [generate_bullets, List.length_map, List.length_take]
    exact Nat.min_le_left _ _
  · intro b hb
    rw [generate_bullets] at hb
    obtain ⟨s, _, rfl⟩ := List.mem_map.1 hb
    by_cases hlen : (strip s).length > 120
    · rw [if_pos hlen, List.length_append, List.length_take]
      have h3 : (toL "...").length = 3 := rfl
      have hm := Nat.min_le_left 117 (strip s).length
      omega
    · rw [if_neg hlen]
      omega
  · rw [generate_bullets]
    congr 1
    funext s
    by_cases h : (strip s).length ≤ 120
    · rw [if_neg (by omega), if_pos h]
    · rw [if_pos (by omega), if_neg h]

/-- Claim C3: for `slides_count ≥ 3`, `summarize_and_outline` always
returns a value (it cannot raise), and on the empty text it returns the
empty sequence of slide records. -/
theorem C3_no_failure (lang : Lang) (text : Str) (sc tw : Int) (hsc : 3 ≤ sc) :
    (summarize_and_outline lang text sc tw).isSome = true ∧
    summarize_and_outline lang [] sc tw = some [] := by
  constructor
  · simp only [summarize_and_outline]
    rw [if_neg (by omega : ¬(sc - 2 = 0))]
    rfl
  · simp only [summarize_and_outline]
    rw [if_neg (by omega : ¬(sc - 2 = 0))]
    have hs : split_into_sentences ([] : Str) = [] := rfl
    rw [hs, buildSlides_nil]

/-- Witness for C3 at `slides_count = 3`. -/
theorem C3_witness :
    (summarize_and_outline Lang.es (toL "x") 3 500).isSome = true ∧
    summarize_and_outline Lang.es [] 3 500 = some [] :=
  C3_no_failure Lang.es (toL "x") 3 500 (by decide)

/-- Claim C4: on `"A. B. C. D. E. F."` with `slides_count = 5` the code
produces exactly two slide records, with bullets `["A","B","C"]` and
`["D","E","F"]`; the empty third window stops generation with no padding. -/
theorem C4_six_sentence_scenario :
    summarize_and_outline Lang.es (toL "A. B. C. D. E. F.") 5 500 =
      some [{ title := toL "A", bullets := [toL "A", toL "B", toL "C"],
              image_path := none, alt := [] },
            { title := toL "D", bullets := [toL "D", toL "E", toL "F"],
              image_path := none, alt := [] }] := by
  decide

/-- Claim C5: for a description with at least one word,
`research_and_expand` returns exactly `target_words` space-joined words,
cyclically repeating the description's words. -/
theorem C5_cyclic_expansion (d : Str) (t : Nat) (hne : pyWords d ≠ []) :
    ∃ s, research_and_expand d t = some s ∧ (pyWords s).length = t ∧
      ∀ i, i < t → (pyWords s)[i]? = (pyWords d)[i % (pyWords d).length]? := by
  have hlen0 : ¬((pyWords d).length = 0) := by
    simpa [List.length_eq_zero] using hne
  simp only [research_and_expand]
  rw [if_neg hlen0]
  set n := (pyWords d).length with hn
  set reps := t / n + 1 with hreps
  set W := pyWords (List.flatten (List.replicate reps (d ++ [' ']))) with hW
  have hflat : W = List.flatten (List.replicate reps (pyWords d)) :=
    pyWords_flatten_replicate reps d
  have hmemW : ∀ w ∈ W.take t, w ≠ [] ∧ ∀ c ∈ w, isSpace c = false := by
    intro w hwmem
    exact mem_pyWords w _ (List.mem_of_mem_take hwmem)
  have hWlen : W.length = reps * n := by
    rw [hflat]
    exact length_flatten_replicate reps (pyWords d)
  have hpos : 0 < n := Nat.pos_of_ne_zero hlen0
  have hdm : n * (t / n) + t % n = t := Nat.div_add_mod t n
  have hml : t % n < n := Nat.mod_lt t hpos
  have hmul : reps * n = n * (t / n) + n := by
    rw [hreps, Nat.add_mul, one_mul, Nat.mul_comm]
  have hWt : t ≤ reps * n := by omega
  refine ⟨_, rfl, ?_, ?_⟩
  · rw [pyWords_join (W.take t) hmemW, List.length_take, hWlen]
    exact Nat.min_eq_left hWt
  · intro i hi
    rw [pyWords_join (W.take t) hmemW, List.getElem?_take, if_pos hi, hflat]
    exact getElem?_flatten_replicate (pyWords d) reps i (lt_of_lt_of_le hi hWt)

/-- Witness for C5 at `("hello world", 10)`. -/
theorem C5_witness :
    pyWords (toL "hello world") ≠ [] ∧
    ∃ s, research_and_expand (toL "hello world") 10 = some s ∧
      (pyWords s).length = 10 ∧
      ∀ i, i < 10 → (pyWords s)[i]? =
        (pyWords (toL "hello world"))[i % (pyWords (toL "hello world")).length]? :=
  ⟨by decide, C5_cyclic_expansion (toL "hello world") 10 (by decide)⟩

/-- Claim C6: a description with zero words (all characters whitespace,
including the empty string) makes `research_and_expand` divide by zero
for every `target_words`; the model returns `none` for the raised
`ZeroDivisionError`. -/
theorem C6_zero_words_raises (d : Str) (t : Nat) (h : ∀ c ∈ d, isSpace c = true) :
    research_and_expand d t = none := by
  have hw : pyWords d = [] := wordsAux_all_space d h
  simp only [research_and_expand]
  rw [if_pos (by simp [hw] : (pyWords d).length = 0)]

/-- Witness for C6 on the all-whitespace description. -/
theorem C6_witness :
    (∀ c ∈ toL "  ", isSpace c = true) ∧
    research_and_expand (toL "  ") 7 = none :=
  ⟨by decide, C6_zero_words_raises (toL "  ") 7 (by decide)⟩

/-- Claim C7: `validate_content` reports `true` exactly when its warning
list is empty, and a slide with 7 bullets against a maximum of 6 yields
exactly one warning, which mentions both "7" and "6". -/
theorem C7_validate (pe : Str → Bool) (slides : List SlideContent) (spec : Spec) :
    ((validate_content pe slides spec).1 = true ↔
      (validate_content pe slides spec).2 = []) ∧
    (validate_content (fun _ => true)
        [{ title := toL "t",
           bullets := [toL "b1", toL "b2", toL "b3", toL "b4", toL "b5",
                       toL "b6", toL "b7"],
           image_path := none, alt := [] }]
        { length_target := { bullets_per_slide_max := some 6 } }).2.length = 1 ∧
    ∀ w ∈ (validate_content (fun _ => true)
        [{ title := toL "t",
           bullets := [toL "b1", toL "b2", toL "b3", toL "b4", toL "b5",
                       toL "b6", toL "b7"],
           image_path := none, alt := [] }]
        { length_target := { bullets_per_slide_max := some 6 } }).2,
      toL "7" <:+: w ∧ toL "6" <:+: w := by
  refine ⟨?_, by decide, by decide⟩
  simp only [validate_content, decide_eq_true_eq, List.length_eq_zero]

/-- Claim C8: `extract_key_ideas` returns exactly
`min count number_of_sentences` items and is a verbatim prefix of
`split_into_sentences text`. -/
theorem C8_key_ideas_prefix (text : Str) (count : Nat) :
    (extract_key_ideas text count).length =
      min count (split_into_sentences text).length ∧
    extract_key_ideas text count <+: split_into_sentences text :=
  ⟨by rw [extract_key_ideas, List.length_take], List.take_prefix _ _⟩

/-- Claim C9, counterexample: `" a "` is non-empty and contains no
terminal punctuation, yet splitting yields `["a"]`, not the whole input
as a single sentence. -/
theorem C9_counterexample :
    (toL " a " ≠ [] ∧ ∀ c ∈ toL " a ", isPunct c = false) ∧
    split_into_sentences (toL " a ") ≠ [toL " a "] := by
  decide

/-- Claim C9, amended: every returned sentence is non-empty and
whitespace-trimmed, the result keeps the source order of the
punctuation-split pieces, and text with no terminal punctuation yields
its trimmed form as the single sentence (nothing when the trim is empty). -/
theorem C9_amended_sentences (text : Str) (_hne : text ≠ []) :
    (∀ s ∈ split_into_sentences text, s ≠ [] ∧ strip s = s) ∧
    (split_into_sentences text).Sublist ((reSplitPunct text).map strip) ∧
    ((∀ c ∈ text, isPunct c = false) →
      split_into_sentences text =
        if strip text = [] then [] else [strip text]) :=
  ⟨fun s hs => mem_split_into_sentences s text hs,
   split_into_sentences_sublist text,
   fun h => split_into_sentences_no_punct text h⟩

/-- Witness for C9 on a punctuation-free text. -/
theorem C9_witness :
    toL "No punctuation here" ≠ [] ∧
    ((∀ s ∈ split_into_sentences (toL "No punctuation here"),
        s ≠ [] ∧ strip s = s) ∧
     (split_into_sentences (toL "No punctuation here")).Sublist
        ((reSplitPunct (toL "No punctuation here")).map strip) ∧
     ((∀ c ∈ toL "No punctuation here", isPunct c = false) →
        split_into_sentences (toL "No punctuation here") =
          if strip (toL "No punctuation here") = [] then []
          else [strip (toL "No punctuation here")])) :=
  ⟨by decide, C9_amended_sentences (toL "No punctuation here") (by decide)⟩

/-- Claim C10: every slide record produced by `summarize_and_outline`
has a non-empty title and at least one bullet. -/
theorem C10_slide_invariants (lang : Lang) (text : Str) (sc tw : Int)
    (l : List SlideContent) (h : summarize_and_outline lang text sc tw = some l) :
    ∀ sl ∈ l, sl.title ≠ [] ∧ sl.bullets ≠ [] := by
  intro sl hsl
  simp only [summarize_and_outline] at h
  by_cases h0 : sc - 2 = 0
  · rw [if_pos h0] at h
    exact absurd h (by simp)
  · rw [if_neg h0] at h
    have hl := Option.some.inj h
    rw [← hl] at hsl
    exact mem_buildSlides lang (split_into_sentences text) _ _ _
      (fun s hs => mem_split_into_sentences s text hs) sl hsl

/-- Witness for C10 on a three-sentence text. -/
theorem C10_witness :
    ({ title := toL "A", bullets := [toL "A", toL "B", toL "C"],
       image_path := none, alt := [] } : SlideContent).title ≠ [] ∧
    ({ title := toL "A", bullets := [toL "A", toL "B", toL "C"],
       image_path := none, alt := [] } : SlideContent).bullets ≠ [] :=
  C10_slide_invariants Lang.es (toL "A. B. C.") 3 500
    [{ title := toL "A", bullets := [toL "A", toL "B", toL "C"],
       image_path := none, alt := [] }] (by decide)
    { title := toL "A", bullets := [toL "A", toL "B", toL "C"],
      image_path := none, alt := [] } (by decide)

end PPTX
